import Mathlib

/-!
Shallow embedding of the retrieval pipeline of the AI-Agent-Token repository
(text chunking, embedding upsert, hybrid ranking, context assembly, confidence
scoring, cosine similarity, conversation-history capping), together with
theorems settling the specification claims about it.

Strings manipulated character-by-character by the source (chunking) are
modelled on their character-list view (`List Char`); strings that are only
concatenated and measured are modelled as `String`.  JS numbers are modelled
as `ℚ` (or `ℝ` where a square root is taken), array indices and lengths as `ℕ`.
-/

namespace AgentToken

/-! ### JS primitives used by the pipeline -/

/-- JS `Array.prototype.join(sep)`: empty string on the empty array, no
trailing separator otherwise. -/
def jsJoin (sep : String) : List String → String
  | [] => ""
  | [s] => s
  | s :: t :: rest => s ++ sep ++ jsJoin sep (t :: rest)

/-- JS `String.prototype.trim` on the character-list view: strip leading and
trailing whitespace. -/
def jsTrim (s : List Char) : List Char :=
  ((s.dropWhile Char.isWhitespace).reverse.dropWhile Char.isWhitespace).reverse

/-- JS `s.substring(a, b)` for `a ≤ b`, character-list view. -/
def jsSubstring (s : List Char) (a b : Nat) : List Char :=
  (s.drop a).take (b - a)

/-- JS `s.lastIndexOf(' ')`: index of the last space character, `-1` when the
string has no space. -/
def lastIndexOfSpace (s : List Char) : Int :=
  match s.reverse.findIdx? (· = ' ') with
  | some i => ((s.length - 1 - i : Nat) : Int)
  | none => -1

/-! ### Chunking (src/src/utils/chunking.ts) -/

/-- One loop iteration's chunk in `splitTextIntoChunks` (chunking.ts lines
73-82): the window `[start, end)` with `end = min(start + chunkSize, len)`;
when the window does not reach the end of the text and the last space of the
window sits past 80% of `chunkSize`, the window is cut at that space.  The
float comparison `lastSpaceIndex > chunkSize * 0.8` is scaled by 5 into exact
integer arithmetic. -/
def chunkWindow (text : List Char) (chunkSize start : Nat) : List Char :=
  let e := min (start + chunkSize) text.length
  let chunk := jsSubstring text start e
  if e < text.length then
    let lastSpaceIndex := lastIndexOfSpace chunk
    if 4 * (chunkSize : Int) < 5 * lastSpaceIndex then
      jsSubstring chunk 0 lastSpaceIndex.toNat
    else chunk
  else chunk

/-- The advance `start = Math.max(start + chunkSize - overlap, start + 1)`
(chunking.ts line 88).  Truncated `ℕ` subtraction followed by `max` with
`start + 1` agrees with the JS arithmetic: whenever the JS value
`start + chunkSize - overlap` is negative, `start + 1` wins the `max` in both
readings. -/
def nextStart (start chunkSize overlap : Nat) : Nat :=
  max (start + chunkSize - overlap) (start + 1)

/-- The `while (start < text.length)` loop of `splitTextIntoChunks`
(chunking.ts lines 72-89), with an explicit iteration budget `fuel`; `none`
means the budget ran out.  Each iteration pushes the trimmed window; the loop
breaks right after pushing a window that reaches the end of the text. -/
def chunksLoop (text : List Char) (chunkSize overlap : Nat) : Nat → Nat → Option (List (List Char))
  | _, 0 => none
  | start, fuel + 1 =>
    if start < text.length then
      let e := min (start + chunkSize) text.length
      let c := jsTrim (chunkWindow text chunkSize start)
      if text.length ≤ e then some [c]
      else
        match chunksLoop text chunkSize overlap (nextStart start chunkSize overlap) fuel with
        | some rest => some (c :: rest)
        | none => none
    else some []

/-- `splitTextIntoChunks` (chunking.ts lines 60-92): texts no longer than
`chunkSize` are returned whole as a singleton; longer texts run the window
loop and the resulting chunks are filtered to the non-empty ones.  The budget
`text.length + 1` is enough for the loop (proved below). -/
def splitTextIntoChunks (text : List Char) (chunkSize overlap : Nat) : List (List Char) :=
  if text.length ≤ chunkSize then [text]
  else
    ((chunksLoop text chunkSize overlap 0 (text.length + 1)).getD []).filter
      (fun chunk => 0 < chunk.length)

/-! ### Token metadata (src/src/utils/chunking.ts, interfaces and text serialization)

JS `number` fields are modelled as `ℚ`, `Date` as epoch milliseconds (`ℤ`),
optional fields as `Option`.  Environment-dependent JS rendering primitives
(`toString` on floats, `toLocaleString`, `Date.toDateString`) are parameters
of the embedding, collected in `JsRuntime`. -/

structure AuditInfo where
  status : String
  report : Option String
  score : Option ℚ

structure RiskInfo where
  level : String
  factors : List String

structure AnalyticsInfo where
  priceChange24h : Option ℚ
  priceChange7d : Option ℚ
  priceChange30d : Option ℚ
  volatility : Option ℚ
  liquidityScore : Option ℚ

structure TokenMetadata where
  id : String
  name : String
  symbol : String
  description : Option String := none
  contractAddress : Option String := none
  network : Option String := none
  totalSupply : Option String := none
  decimals : Option ℚ := none
  price : Option ℚ := none
  marketCap : Option ℚ := none
  volume24h : Option ℚ := none
  holders : Option ℚ := none
  website : Option String := none
  whitepaper : Option String := none
  github : Option String := none
  twitter : Option String := none
  telegram : Option String := none
  discord : Option String := none
  tags : Option (List String) := none
  launchDate : Option Int := none
  audit : Option AuditInfo := none
  risk : Option RiskInfo := none
  analytics : Option AnalyticsInfo := none
  additional : Option (List (String × String)) := none

/-- The environment-dependent JS rendering primitives used by
`tokenMetadataToText`. -/
structure JsRuntime where
  numToString : ℚ → String
  numToLocaleString : ℚ → String
  dateToDateString : Int → String

/-- JS truthiness of an optional string field: absent and empty are falsy. -/
def truthy : Option String → Option String
  | some s => if s = "" then none else some s
  | none => none

/-- A section pushed under a JS truthiness check on an optional string. -/
def optSection (o : Option String) (f : String → String) : List String :=
  match truthy o with
  | some s => [f s]
  | none => []

/-- A section pushed under a JS `!== undefined` check on an optional number. -/
def optNumSection (o : Option ℚ) (f : ℚ → String) : List String :=
  match o with
  | some q => [f q]
  | none => []

/-- `tokenMetadataToText` (chunking.ts lines 97-220): serialize a token record
into the newline-joined list of its present sections. -/
def tokenMetadataToText (rt : JsRuntime) (token : TokenMetadata) : String :=
  let socialLinks : List String :=
    optSection token.twitter (fun s => "Twitter: " ++ s)
    ++ optSection token.telegram (fun s => "Telegram: " ++ s)
    ++ optSection token.discord (fun s => "Discord: " ++ s)
  let analyticsParts : List String :=
    match token.analytics with
    | none => []
    | some a =>
      optNumSection a.priceChange24h (fun q => "24h Change: " ++ rt.numToString q ++ "%")
      ++ optNumSection a.priceChange7d (fun q => "7d Change: " ++ rt.numToString q ++ "%")
      ++ optNumSection a.priceChange30d (fun q => "30d Change: " ++ rt.numToString q ++ "%")
      ++ optNumSection a.volatility (fun q => "Volatility: " ++ rt.numToString q)
      ++ optNumSection a.liquidityScore (fun q => "Liquidity Score: " ++ rt.numToString q)
  let sections : List String :=
    ["Token: " ++ token.name ++ " (" ++ token.symbol ++ ")"]
    ++ optSection token.description (fun s => "Description: " ++ s)
    ++ optSection token.contractAddress (fun s => "Contract Address: " ++ s)
    ++ optSection token.network (fun s => "Network: " ++ s)
    ++ optSection token.totalSupply (fun s => "Total Supply: " ++ s)
    ++ optNumSection token.decimals (fun q => "Decimals: " ++ rt.numToString q)
    ++ optNumSection token.price (fun q => "Price: $" ++ rt.numToString q)
    ++ optNumSection token.marketCap (fun q => "Market Cap: $" ++ rt.numToLocaleString q)
    ++ optNumSection token.volume24h (fun q => "24h Volume: $" ++ rt.numToLocaleString q)
    ++ optNumSection token.holders (fun q => "Holders: " ++ rt.numToLocaleString q)
    ++ optSection token.website (fun s => "Website: " ++ s)
    ++ optSection token.whitepaper (fun s => "Whitepaper: " ++ s)
    ++ optSection token.github (fun s => "GitHub: " ++ s)
    ++ (if 0 < socialLinks.length then ["Social Media: " ++ jsJoin ", " socialLinks] else [])
    ++ (match token.tags with
        | some ts => if 0 < ts.length then ["Tags: " ++ jsJoin ", " ts] else []
        | none => [])
    ++ (match token.launchDate with
        | some d => ["Launch Date: " ++ rt.dateToDateString d]
        | none => [])
    ++ (match token.audit with
        | some a =>
          ["Audit Status: " ++ a.status]
          ++ optNumSection a.score (fun q => "Audit Score: " ++ rt.numToString q ++ "/100")
          ++ optSection a.report (fun s => "Audit Report: " ++ s)
        | none => [])
    ++ (match token.risk with
        | some r =>
          ["Risk Level: " ++ r.level]
          ++ (if 0 < r.factors.length then ["Risk Factors: " ++ jsJoin ", " r.factors] else [])
        | none => [])
    ++ (if 0 < analyticsParts.length then ["Analytics: " ++ jsJoin ", " analyticsParts] else [])
    ++ (match token.additional with
        | some entries =>
          let additionalParts := jsJoin ", " (entries.map (fun kv => kv.1 ++ ": " ++ kv.2))
          if additionalParts = "" then [] else ["Additional Info: " ++ additionalParts]
        | none => [])
  jsJoin "\n" sections

/-! ### Chunked data (chunking.ts, `ChunkedData` and `chunkTokenMetadata`) -/

structure ChunkMeta where
  tokenId : String
  tokenName : String
  tokenSymbol : String
  chunkType : String
  originalLength : Nat
  deriving DecidableEq

structure ChunkedData where
  id : String
  chunkIndex : Nat
  totalChunks : Nat
  content : String
  metadata : ChunkMeta
  deriving DecidableEq

/-- Decimal rendering of a natural number, the JS `${index}` interpolation of
an integer index. -/
def natDec (n : ℕ) : String :=
  if n = 0 then "0" else String.mk ((Nat.digits 10 n).reverse.map Nat.digitChar)

/-- JS `array.map((x, index) => ...)` with a running index. -/
def mapIdxGo (f : Nat → α → β) : Nat → List α → List β
  | _, [] => []
  | i, a :: rest => f i a :: mapIdxGo f (i + 1) rest

/-- The fragment record literal built by `chunkTokenMetadata` (chunking.ts
lines 233-245) for one chunk: `tid`, `tname`, `tsym` are the token's fields,
`olen` the serialized full-text length, `N` the chunk count. -/
def mkFragment (tid tname tsym : String) (olen N : Nat) (index : Nat) (chunk : List Char) :
    ChunkedData :=
  { id := tid ++ "-chunk-" ++ natDec index
    chunkIndex := index
    totalChunks := N
    content := String.mk chunk
    metadata :=
      { tokenId := tid
        tokenName := tname
        tokenSymbol := tsym
        chunkType := "metadata"
        originalLength := olen } }

/-- `chunkTokenMetadata` (chunking.ts lines 225-246): serialize the token,
split into chunks, and wrap each chunk with its index, total count and
metadata. -/
def chunkTokenMetadata (rt : JsRuntime) (token : TokenMetadata) (chunkSize overlap : Nat) :
    List ChunkedData :=
  let fullText := tokenMetadataToText rt token
  let textChunks := splitTextIntoChunks fullText.toList chunkSize overlap
  mapIdxGo (mkFragment token.id token.name token.symbol fullText.length textChunks.length)
    0 textChunks

/-! ### Vector search service (src/src/services/vectorSearchService.ts) -/

/-- `VectorMetadata` (vectorSearchService.ts lines 5-15). -/
structure VectorMetadata where
  tokenId : String
  tokenName : String
  tokenSymbol : String
  chunkType : String
  chunkIndex : Nat
  totalChunks : Nat
  originalLength : Nat
  content : String
  deriving DecidableEq

/-- `SimilarityResult` (vectorSearchService.ts lines 17-22). -/
structure SimilarityResult where
  id : String
  score : ℚ
  metadata : VectorMetadata
  content : String
  deriving DecidableEq

/-- `UpsertResponse` (vectorSearchService.ts lines 24-28). -/
structure UpsertResponse where
  upsertedCount : Nat
  success : Bool
  error : Option String := none
  deriving DecidableEq

/-- `EmbeddingResult` (embeddingService.ts lines 4-10): its `metadata` field is
`ChunkedData['metadata']`, which carries no chunk index. -/
structure EmbeddingResult where
  id : String
  embedding : List ℚ
  metadata : ChunkMeta
  content : String
  tokens : Nat
  deriving DecidableEq

/-- `estimateTokenCount` (chunking.ts lines 269-272): `Math.ceil(len / 4)`. -/
def estimateTokenCount (text : String) : Nat :=
  (text.length + 3) / 4

/-- The `EmbeddingResult` literal built per chunk by `processChunkedData`
(embeddingService.ts lines 140-146); the chunk's own `chunkIndex` and
`totalChunks` are not carried over. -/
def mkEmbeddingResult (chunk : ChunkedData) (vector : List ℚ) : EmbeddingResult :=
  { id := chunk.id
    embedding := vector
    metadata := chunk.metadata
    content := chunk.content
    tokens := estimateTokenCount chunk.content }

/-- The vector record upserted to the external store. -/
structure PineconeVector where
  id : String
  values : List ℚ
  metadata : VectorMetadata
  deriving DecidableEq

/-- The vector-preparation map of `upsertEmbeddings` (vectorSearchService.ts
lines 113-126): `chunkIndex` is the literal `0` and `totalChunks` is
`originalLength || 1` (JS `||` on a number: `1` when the value is zero). -/
def toPineconeVector (e : EmbeddingResult) : PineconeVector :=
  { id := e.id
    values := e.embedding
    metadata :=
      { tokenId := e.metadata.tokenId
        tokenName := e.metadata.tokenName
        tokenSymbol := e.metadata.tokenSymbol
        chunkType := e.metadata.chunkType
        chunkIndex := 0
        totalChunks := if e.metadata.originalLength = 0 then 1 else e.metadata.originalLength
        originalLength := e.metadata.originalLength
        content := e.content } }

/-- The batch slicing `vectors.slice(i, i + BATCH_SIZE)` of the upsert loop
(vectorSearchService.ts lines 129-133), `BATCH_SIZE = 100`; `fuel` is an
iteration budget, sufficient at `vectors.length` because each step drops at
least one element. -/
def batchesGo (fuel : Nat) (vectors : List PineconeVector) : List (List PineconeVector) :=
  match fuel, vectors with
  | _, [] => []
  | 0, _ :: _ => []
  | f + 1, v :: rest => (v :: rest).take 100 :: batchesGo f ((v :: rest).drop 100)

def batchedVectors (vectors : List PineconeVector) : List (List PineconeVector) :=
  batchesGo vectors.length vectors

/-- The upsert loop body (vectorSearchService.ts lines 132-144): the external
`index.upsert(batch)` call is modelled by the oracle `upsertOp`, which either
succeeds or throws a message; `upsertedCount` accumulates after each
successful batch, and a throw aborts the loop. -/
def runBatches (upsertOp : List PineconeVector → Except String Unit) :
    List (List PineconeVector) → Nat → Except String Nat
  | [], acc => .ok acc
  | b :: rest, acc =>
    match upsertOp b with
    | .ok _ => runBatches upsertOp rest (acc + b.length)
    | .error e => .error e

/-- `upsertEmbeddings` (vectorSearchService.ts lines 108-158): map the records
to vectors, upsert in batches of 100 inside a try/catch; the catch clause
(lines 150-157) returns the literal `upsertedCount: 0` with `success: false`
and the thrown message. -/
def upsertEmbeddings (upsertOp : List PineconeVector → Except String Unit)
    (embeddings : List EmbeddingResult) : UpsertResponse :=
  let vectors := embeddings.map toPineconeVector
  match runBatches upsertOp (batchedVectors vectors) 0 with
  | .ok n => { upsertedCount := n, success := true, error := none }
  | .error e => { upsertedCount := 0, success := false, error := some e }

/-- A concrete chunk metadata record used for concrete evaluations. -/
def sampleMeta : ChunkMeta :=
  { tokenId := "t", tokenName := "T", tokenSymbol := "TT",
    chunkType := "metadata", originalLength := 5 }

/-- A concrete embedding record used for concrete evaluations. -/
def sampleEmbedding : EmbeddingResult :=
  { id := "t-chunk-0", embedding := [1, 0], metadata := sampleMeta,
    content := "hello", tokens := 2 }

/-- 150 records: enough for two upsert batches (100 + 50). -/
def manyEmbeddings : List EmbeddingResult :=
  List.replicate 150 sampleEmbedding

/-- An upsert oracle that accepts exactly the full 100-element batches and
throws on the trailing 50-element batch. -/
def failSecond : List PineconeVector → Except String Unit :=
  fun batch => if batch.length = 100 then .ok () else .error "upsert failed"

/-- A concrete chunk whose index is non-zero. -/
def sampleChunk : ChunkedData :=
  { id := "t-chunk-1", chunkIndex := 1, totalChunks := 2, content := "x",
    metadata := sampleMeta }

/-! ### Hybrid search boosting (vectorSearchService.ts, `hybridSearch`) -/

/-- `query.toLowerCase().split(' ').filter(word => word.length > 2)`
(vectorSearchService.ts line 326). -/
def queryKeywords (query : String) : List String :=
  (query.toLower.split (fun c => c = ' ')).filter (fun w => 2 < w.length)

/-- Prefix test on character lists, the building block of JS
`String.prototype.includes`. -/
def isPrefOf : List Char → List Char → Bool
  | [], _ => true
  | _ :: _, [] => false
  | a :: as, b :: bs => a == b && isPrefOf as bs

/-- JS `hay.includes(needle)`: `needle` occurs as a contiguous substring. -/
def containsSub (needle : List Char) : List Char → Bool
  | [] => isPrefOf needle []
  | c :: t => isPrefOf needle (c :: t) || containsSub needle t

/-- The boost accumulation of `hybridSearch` (vectorSearchService.ts lines
330-337): `0.1` per keyword occurring in the lowercased content. -/
def keywordBoost (keywords : List String) (content : String) : ℚ :=
  keywords.foldl
    (fun boost keyword =>
      if containsSub keyword.toList content.toLower.toList then boost + (1/10 : ℚ)
      else boost) 0

/-- The boosted-score map of `hybridSearch` (vectorSearchService.ts lines
329-343): each semantic result's score is raised by its keyword boost and
capped at `1.0`. -/
def boostResults (query : String) (results : List SimilarityResult) : List SimilarityResult :=
  let keywords := queryKeywords query
  results.map (fun result =>
    { result with score := min (result.score + keywordBoost keywords result.content) 1 })

/-- Stable insertion of `x` before the first element `y` with `le x y`. -/
def orderedInsertBy (le : α → α → Bool) (x : α) : List α → List α
  | [] => [x]
  | y :: t => if le x y then x :: y :: t else y :: orderedInsertBy le x t

/-- Stable sort (insertion sort).  JS `Array.prototype.sort` is stable, and a
stable sort's output is unique, so this models the V8 sorts of the source. -/
def insertionSortBy (le : α → α → Bool) : List α → List α
  | [] => []
  | x :: t => orderedInsertBy le x (insertionSortBy le t)

/-- The re-sort (descending by boosted score via the comparator
`(a, b) => b.score - a.score`, stable) and top-K slice of `hybridSearch`
(vectorSearchService.ts lines 346-348). -/
def hybridSearchRank (query : String) (semanticResults : List SimilarityResult)
    (topK : Nat) : List SimilarityResult :=
  (insertionSortBy (fun a b => decide (b.score ≤ a.score))
    (boostResults query semanticResults)).take topK

/-! ### Confidence scoring (src/src/services/chatbotService.ts) -/

/-- `calculateConfidence` (chatbotService.ts lines 210-221): average score
plus a diversity bonus of `min(highQualityCount / 5, 0.2)`, clamped to 1. -/
def calculateConfidence (results : List SimilarityResult) : ℚ :=
  if results.length = 0 then 0
  else
    let avgScore := results.foldl (fun sum r => sum + r.score) 0 / (results.length : ℚ)
    let highQualityResults := (results.filter (fun r => (4/5 : ℚ) < r.score)).length
    let diversityBonus := min ((highQualityResults : ℚ) / 5) (1/5 : ℚ)
    min (avgScore + diversityBonus) 1

/-- Modelled from the spec wording, for the refinement comparison with
`calculateConfidence`: "0 if `results` is empty. Otherwise
`avg(score_i) + min(count(score_i > 0.8) / 5, 0.2)`, clamped to 1.0
maximum." -/
def confidenceSpec (results : List SimilarityResult) : ℚ :=
  if results = [] then 0
  else
    min (((results.map (fun r => r.score)).sum / (results.length : ℚ))
      + min ((results.countP (fun r => (4/5 : ℚ) < r.score) : ℚ) / 5) (1/5 : ℚ)) 1

/-- A concrete vector metadata record for concrete evaluations. -/
def sampleVecMeta : VectorMetadata :=
  { tokenId := "t", tokenName := "T", tokenSymbol := "TT", chunkType := "metadata",
    chunkIndex := 0, totalChunks := 1, originalLength := 5, content := "hello" }

/-- A concrete mid-score similarity result. -/
def sampleResultA : SimilarityResult :=
  { id := "a", score := 1/2, metadata := sampleVecMeta, content := "some text" }

/-- A concrete high-score (> 0.8) similarity result. -/
def sampleResultHigh : SimilarityResult :=
  { id := "b", score := 9/10, metadata := sampleVecMeta, content := "more text" }

/-- A concrete semantic candidate whose content mentions a query keyword. -/
def sampleCandidate : SimilarityResult :=
  { id := "x", score := 1/2, metadata := sampleVecMeta, content := "Hello there" }

/-! ### Context assembly (chatbotService.ts, `prepareContext`) -/

/-- Key order of the `Map` grouping (chatbotService.ts lines 162-170): token
ids in first-occurrence order (JS `Map` preserves insertion order); `fuel` is
an iteration budget, sufficient at `l.length` since the filtered tail is
shorter. -/
def firstOccurrencesGo (fuel : Nat) (l : List String) : List String :=
  match fuel, l with
  | _, [] => []
  | 0, _ :: _ => []
  | f + 1, x :: xs => x :: firstOccurrencesGo f (xs.filter (fun y => y ≠ x))

def firstOccurrences (l : List String) : List String :=
  firstOccurrencesGo l.length l

/-- The grouping of results by token id (chatbotService.ts lines 162-170):
one group per token id in first-occurrence order, each group keeping the
results' encounter order. -/
def tokenGroups (results : List SimilarityResult) : List (List SimilarityResult) :=
  (firstOccurrences (results.map (fun r => r.metadata.tokenId))).map
    (fun tid => results.filter (fun r => r.metadata.tokenId = tid))

/-- The within-group stable sort by chunk index, comparator
`(a, b) => a.metadata.chunkIndex - b.metadata.chunkIndex`
(chatbotService.ts lines 178-181). -/
def sortByChunkIndex (group : List SimilarityResult) : List SimilarityResult :=
  insertionSortBy (fun x y => decide (x.metadata.chunkIndex ≤ y.metadata.chunkIndex)) group

/-- The group header `` `\n--- ${tokenName} (${tokenSymbol}) ---\n` ``
(chatbotService.ts line 186), read off `sortedResults[0]`; the empty case
mirrors the JS undefined access and is unreachable in the pipeline. -/
def groupHeader (group : List SimilarityResult) : String :=
  match group with
  | [] => "\n--- undefined (undefined) ---\n"
  | r :: _ => "\n--- " ++ r.metadata.tokenName ++ " (" ++ r.metadata.tokenSymbol ++ ") ---\n"

/-- The inner fragment loop (chatbotService.ts lines 188-194): append
`` `${content}\n` `` while the running total (emitted blocks + this block +
the addition) stays within `maxLen`; break at the first overflow. -/
def addChunks (maxLen totalLength : Nat) : String → List SimilarityResult → String
  | ctx, [] => ctx
  | ctx, r :: rest =>
    let addition := r.content ++ "\n"
    if maxLen < totalLength + ctx.length + addition.length then ctx
    else addChunks maxLen totalLength (ctx ++ addition) rest

/-- The outer group loop (chatbotService.ts lines 177-202): build each group's
block from its header and sorted fragments; push the block and charge its
length if it still fits entirely, otherwise stop processing groups. -/
def buildParts (maxLen : Nat) : Nat → List String → List (List SimilarityResult) → List String
  | _, parts, [] => parts
  | totalLength, parts, g :: gs =>
    let sorted := sortByChunkIndex g
    let tokenContext := addChunks maxLen totalLength (groupHeader sorted) sorted
    if totalLength + tokenContext.length ≤ maxLen then
      buildParts maxLen (totalLength + tokenContext.length) (parts ++ [tokenContext]) gs
    else parts

/-- `prepareContext` (chatbotService.ts lines 156-205), parameterized by the
configured `maxContextLength`; the retained blocks are joined with `'\n'`. -/
def prepareContext (results : List SimilarityResult) (maxLen : Nat) : String :=
  if results.length = 0 then "No relevant token information found."
  else jsJoin "\n" (buildParts maxLen 0 [] (tokenGroups results))

/-- A result for token "a" whose content is 30 characters long. -/
def csResultA : SimilarityResult :=
  { id := "1", score := 1,
    metadata := { tokenId := "a", tokenName := "A", tokenSymbol := "X",
                  chunkType := "metadata", chunkIndex := 0, totalChunks := 1,
                  originalLength := 30, content := "cccccccccccccccccccccccccccccc" },
    content := "cccccccccccccccccccccccccccccc" }

/-- A result for a second token "b", same 30-character content. -/
def csResultB : SimilarityResult :=
  { id := "2", score := 1,
    metadata := { tokenId := "b", tokenName := "B", tokenSymbol := "Y",
                  chunkType := "metadata", chunkIndex := 0, totalChunks := 1,
                  originalLength := 30, content := "cccccccccccccccccccccccccccccc" },
    content := "cccccccccccccccccccccccccccccc" }

/-- Two results in distinct token groups: each group block is its 15-character
header alone, both fit a 30-character budget exactly, and the join adds one
separator character. -/
def csResults : List SimilarityResult := [csResultA, csResultB]

/-! ### Conversation history capping (src/src/server.ts) -/

inductive ChatRole
  | system
  | user
  | assistant
  deriving DecidableEq

/-- `ChatMessage` of the transport layer (server.ts lines 9-13). -/
structure ServerChatMessage where
  role : ChatRole
  content : String
  timestamp : Option Int := none
  deriving DecidableEq

/-- The append-then-trim step of the chat handler (server.ts lines 283 and
299-301): push the message, then keep `history.slice(-20)` when the length
exceeds 20. -/
def appendAndTrim (history : List ServerChatMessage) (msg : ServerChatMessage) :
    List ServerChatMessage :=
  let h := history ++ [msg]
  if 20 < h.length then h.drop (h.length - 20) else h

/-- 21 concrete messages. -/
def msgs21 : List ServerChatMessage :=
  List.replicate 21 { role := ChatRole.user, content := "m" }

/-! ### Cosine similarity (embeddingService.ts, `calculateCosineSimilarity`)

JS numbers are idealized as `ℝ` here because a square root is taken. -/

/-- The accumulation loop (embeddingService.ts lines 171-176) pairing the two
vectors componentwise; applied to `(a, b)`, `(a, a)` and `(b, b)` it yields
`dotProduct`, `normA` and `normB`. -/
def dotAcc : List ℝ → List ℝ → ℝ
  | a :: as, b :: bs => a * b + dotAcc as bs
  | _, _ => 0

open Classical in
/-- `calculateCosineSimilarity` (embeddingService.ts lines 162-182): unequal
lengths throw; a zero `normA` or `normB` yields 0; otherwise the dot product
over the product of the square-rooted norms. -/
noncomputable def calculateCosineSimilarity (vecA vecB : List ℝ) : Except String ℝ :=
  if vecA.length ≠ vecB.length then .error "Vectors must have the same length"
  else if dotAcc vecA vecA = 0 ∨ dotAcc vecB vecB = 0 then .ok 0
  else .ok (dotAcc vecA vecB / (Real.sqrt (dotAcc vecA vecA) * Real.sqrt (dotAcc vecB vecB)))

end AgentToken

namespace AgentToken

/-! ### Theorems: chunking loop termination and the short-text branch -/

theorem nextStart_progress (start chunkSize overlap : Nat) :
    start + 1 ≤ nextStart start chunkSize overlap :=
  le_max_right _ _

theorem chunksLoop_isSome (text : List Char) (chunkSize overlap : Nat) :
    ∀ fuel start, 0 < fuel → text.length < fuel + start →
      (chunksLoop text chunkSize overlap start fuel).isSome = true := by
  intro fuel
  induction fuel with
  | zero => intro start h0 _; exact absurd h0 (by omega)
  | succ f ih =>
    intro start _ hlen
    by_cases hstart : start < text.length
    · rw [chunksLoop, if_pos hstart]
      by_cases hend : text.length ≤ min (start + chunkSize) text.length
      · rw [if_pos hend]; rfl
      · rw [if_neg hend]
        have hf : 0 < f := by omega
        have hrec := ih (nextStart start chunkSize overlap) hf
          (by have := nextStart_progress start chunkSize overlap; omega)
        cases hcl : chunksLoop text chunkSize overlap (nextStart start chunkSize overlap) f with
        | none => rw [hcl] at hrec; simp at hrec
        | some rest => simp [hcl]
    · rw [chunksLoop, if_neg hstart]; rfl

/-- Claim C7 (amended: for the empty text the short-text branch returns the
singleton empty string, so non-emptiness of the produced chunks needs the text
to be non-empty): for every non-empty text, every `chunkSize ≥ 1` and every
`overlap` — including the degenerate configuration `overlap ≥ chunkSize` — the
start position advances by at least 1 each iteration, the chunking loop
terminates within its `text.length + 1` budget, and no chunk in the returned
list is empty. -/
theorem splitTextIntoChunks_terminates (text : List Char) (chunkSize overlap : Nat)
    (hcs : 1 ≤ chunkSize) (htext : text ≠ []) :
    (∀ start, start + 1 ≤ nextStart start chunkSize overlap)
    ∧ (chunksLoop text chunkSize overlap 0 (text.length + 1)).isSome = true
    ∧ ∀ chunk ∈ splitTextIntoChunks text chunkSize overlap, chunk ≠ [] := by
  refine ⟨fun start => nextStart_progress start chunkSize overlap,
    chunksLoop_isSome text chunkSize overlap (text.length + 1) 0 (by omega) (by omega), ?_⟩
  intro chunk hmem
  unfold splitTextIntoChunks at hmem
  by_cases hshort : text.length ≤ chunkSize
  · rw [if_pos hshort] at hmem
    simp only [List.mem_singleton] at hmem
    exact hmem ▸ htext
  · rw [if_neg hshort] at hmem
    have := (List.mem_filter.mp hmem).2
    intro hnil
    rw [hnil] at this
    simp at this

/-- Witness for C7 at the degenerate configuration `overlap ≥ chunkSize`. -/
theorem splitTextIntoChunks_terminates_witness :
    (1 ≤ 1 ∧ "ab".toList ≠ [])
    ∧ ((∀ start, start + 1 ≤ nextStart start 1 5)
      ∧ (chunksLoop "ab".toList 1 5 0 ("ab".toList.length + 1)).isSome = true
      ∧ ∀ chunk ∈ splitTextIntoChunks "ab".toList 1 5, chunk ≠ []) :=
  ⟨⟨le_refl 1, by decide⟩, splitTextIntoChunks_terminates "ab".toList 1 5 (le_refl 1) (by decide)⟩

/-- Claim C7, counterexample to the claim as stated: at the empty text (with
`chunkSize = 1 ≥ 1`, `overlap = 0`) the returned list is the singleton empty
string, so "no string in the returned list is empty" fails. -/
theorem splitTextIntoChunks_empty_counterexample :
    splitTextIntoChunks [] 1 0 = [[]] ∧ ([] : List Char) ∈ splitTextIntoChunks [] 1 0 := by
  decide

/-- Claim C4 (amended: the single fragment is the input text itself, not the
trimmed input — the short-text branch of chunking.ts line 66 returns
`[text]` without trimming): for every text whose length is at most
`chunkSize`, `splitTextIntoChunks` returns exactly the singleton of the
(untrimmed) input text. -/
theorem splitTextIntoChunks_short_text (text : List Char) (chunkSize overlap : Nat)
    (h : text.length ≤ chunkSize) :
    splitTextIntoChunks text chunkSize overlap = [text] := by
  unfold splitTextIntoChunks
  rw [if_pos h]

/-- Witness for C4 at a concrete short text. -/
theorem splitTextIntoChunks_short_text_witness :
    " a ".toList.length ≤ 5 ∧ splitTextIntoChunks " a ".toList 5 0 = [" a ".toList] :=
  ⟨by decide, splitTextIntoChunks_short_text " a ".toList 5 0 (by decide)⟩

/-- Claim C4, counterexample to the claim as stated: on the short text
`" a "` the returned fragment is the untrimmed input, which differs from the
whitespace-trimmed input `"a"` demanded by the claim. -/
theorem splitTextIntoChunks_short_text_counterexample :
    splitTextIntoChunks " a ".toList 5 0 = [" a ".toList]
    ∧ jsTrim " a ".toList = "a".toList
    ∧ splitTextIntoChunks " a ".toList 5 0 ≠ [jsTrim " a ".toList] := by
  decide

/-! ### Theorems: fragment ids, indices and totals (C10) -/

theorem digitChar_injOn : ∀ a, a < 10 → ∀ b, b < 10 →
    Nat.digitChar a = Nat.digitChar b → a = b := by decide

theorem map_digitChar_inj : ∀ (l₁ l₂ : List ℕ), (∀ x ∈ l₁, x < 10) → (∀ x ∈ l₂, x < 10) →
    l₁.map Nat.digitChar = l₂.map Nat.digitChar → l₁ = l₂ := by
  intro l₁
  induction l₁ with
  | nil => intro l₂ _ _ h; cases l₂ <;> simp_all
  | cons a t ih =>
    intro l₂ h₁ h₂ h
    cases l₂ with
    | nil => simp_all
    | cons b t₂ =>
      simp only [List.map_cons, List.cons.injEq] at h
      have ha : a = b := digitChar_injOn a (h₁ a (by simp)) b (h₂ b (by simp)) h.1
      have ht : t = t₂ := ih t₂ (fun x hx => h₁ x (by simp [hx])) (fun x hx => h₂ x (by simp [hx])) h.2
      rw [ha, ht]

theorem natDec_injective : Function.Injective natDec := by
  have key : ∀ n : ℕ, n ≠ 0 → (Nat.digits 10 n).reverse.map Nat.digitChar = ['0'] → False := by
    intro n hn h
    have hd : ∀ x ∈ (Nat.digits 10 n).reverse, x < 10 := by
      intro x hx
      exact Nat.digits_lt_base (by norm_num) (List.mem_reverse.mp hx)
    have : (Nat.digits 10 n).reverse = [0] := by
      have h0 : ([0] : List ℕ).map Nat.digitChar = ['0'] := by decide
      exact map_digitChar_inj _ [0] hd (by decide) (h.trans h0.symm)
    have hdig : Nat.digits 10 n = [0] := by
      have := congrArg List.reverse this
      simpa using this
    have := Nat.ofDigits_digits 10 n
    rw [hdig] at this
    simp [Nat.ofDigits] at this
    exact hn this.symm
  intro m n h
  unfold natDec at h
  by_cases hm : m = 0 <;> by_cases hn : n = 0
  · rw [hm, hn]
  · rw [if_pos hm, if_neg hn] at h
    exact absurd (congrArg String.data h).symm (fun hc => key n hn hc)
  · rw [if_neg hm, if_pos hn] at h
    exact absurd (congrArg String.data h) (fun hc => key m hm hc)
  · rw [if_neg hm, if_neg hn] at h
    have hdata := congrArg String.data h
    simp only [String.data] at hdata
    have hm10 : ∀ x ∈ (Nat.digits 10 m).reverse, x < 10 := fun x hx =>
      Nat.digits_lt_base (by norm_num) (List.mem_reverse.mp hx)
    have hn10 : ∀ x ∈ (Nat.digits 10 n).reverse, x < 10 := fun x hx =>
      Nat.digits_lt_base (by norm_num) (List.mem_reverse.mp hx)
    have hrev := map_digitChar_inj _ _ hm10 hn10 hdata
    have hdig : Nat.digits 10 m = Nat.digits 10 n := by
      have := congrArg List.reverse hrev
      simpa using this
    have := congrArg (Nat.ofDigits 10) hdig
    rwa [Nat.ofDigits_digits, Nat.ofDigits_digits] at this

theorem string_append_cancel_left (s a b : String) (h : s ++ a = s ++ b) : a = b := by
  have hd := congrArg String.data h
  simp only [String.data_append] at hd
  exact String.ext (List.append_cancel_left hd)

theorem mapIdxGo_length (f : Nat → α → β) : ∀ (l : List α) (i : Nat),
    (mapIdxGo f i l).length = l.length := by
  intro l
  induction l with
  | nil => intro i; rfl
  | cons a t ih => intro i; simp [mapIdxGo, ih]

theorem mapIdxGo_map (f : Nat → α → β) (g : β → γ) (e : Nat → γ)
    (he : ∀ j a, g (f j a) = e j) : ∀ (l : List α) (i : Nat),
    (mapIdxGo f i l).map g = (List.range' i l.length).map e := by
  intro l
  induction l with
  | nil => intro i; rfl
  | cons a t ih => intro i; simp [mapIdxGo, List.range', ih, he]

theorem mapIdx_mkFragment_spec (tid tname tsym : String) (olen : Nat) (l : List (List Char)) :
    (mapIdxGo (mkFragment tid tname tsym olen l.length) 0 l).map (fun c => c.id)
      = (List.range (mapIdxGo (mkFragment tid tname tsym olen l.length) 0 l).length).map
          (fun i => tid ++ "-chunk-" ++ natDec i)
    ∧ ((mapIdxGo (mkFragment tid tname tsym olen l.length) 0 l).map (fun c => c.id)).Nodup
    ∧ (mapIdxGo (mkFragment tid tname tsym olen l.length) 0 l).map (fun c => c.chunkIndex)
      = List.range (mapIdxGo (mkFragment tid tname tsym olen l.length) 0 l).length
    ∧ (mapIdxGo (mkFragment tid tname tsym olen l.length) 0 l).map (fun c => c.totalChunks)
      = List.replicate (mapIdxGo (mkFragment tid tname tsym olen l.length) 0 l).length
          (mapIdxGo (mkFragment tid tname tsym olen l.length) 0 l).length := by
  have hinj : Function.Injective (fun i => tid ++ "-chunk-" ++ natDec i) := by
    intro i j hij
    exact natDec_injective (string_append_cancel_left (tid ++ "-chunk-") _ _ hij)
  have hlen := mapIdxGo_length (mkFragment tid tname tsym olen l.length) l 0
  refine ⟨?_, ?_, ?_, ?_⟩
  · rw [hlen, List.range_eq_range']
    exact mapIdxGo_map (mkFragment tid tname tsym olen l.length) (fun c => c.id)
      (fun i => tid ++ "-chunk-" ++ natDec i) (fun j a => rfl) l 0
  · rw [mapIdxGo_map (mkFragment tid tname tsym olen l.length) (fun c => c.id)
      (fun i => tid ++ "-chunk-" ++ natDec i) (fun j a => rfl) l 0]
    exact (List.nodup_range' 0 l.length).map hinj
  · rw [hlen, List.range_eq_range']
    have := mapIdxGo_map (mkFragment tid tname tsym olen l.length)
      (fun c => c.chunkIndex) (fun i => i) (fun j a => rfl) l 0
    rw [this, List.map_id']
  · rw [hlen]
    have := mapIdxGo_map (mkFragment tid tname tsym olen l.length)
      (fun c => c.totalChunks) (fun _ => l.length) (fun j a => rfl) l 0
    rw [this]
    simp [List.eq_replicate_iff]

/-- Claim C10: for every token record (and rendering environment and chunking
configuration), the fragments produced by `chunkTokenMetadata` carry ids
exactly `"<tokenId>-chunk-0"` … `"<tokenId>-chunk-(N-1)"` in order (hence
dense) and pairwise distinct, each fragment's `chunkIndex` equals its
position, and each fragment's `totalChunks` equals the fragment count `N`. -/
theorem chunkTokenMetadata_fragment_ids (rt : JsRuntime) (token : TokenMetadata)
    (chunkSize overlap : Nat) :
    (chunkTokenMetadata rt token chunkSize overlap).map (fun c => c.id)
      = (List.range (chunkTokenMetadata rt token chunkSize overlap).length).map
          (fun i => token.id ++ "-chunk-" ++ natDec i)
    ∧ ((chunkTokenMetadata rt token chunkSize overlap).map (fun c => c.id)).Nodup
    ∧ (chunkTokenMetadata rt token chunkSize overlap).map (fun c => c.chunkIndex)
      = List.range (chunkTokenMetadata rt token chunkSize overlap).length
    ∧ (chunkTokenMetadata rt token chunkSize overlap).map (fun c => c.totalChunks)
      = List.replicate (chunkTokenMetadata rt token chunkSize overlap).length
          (chunkTokenMetadata rt token chunkSize overlap).length :=
  mapIdx_mkFragment_spec token.id token.name token.symbol
    (tokenMetadataToText rt token).length
    (splitTextIntoChunks (tokenMetadataToText rt token).toList chunkSize overlap)

/-! ### Theorems: upsert metadata (C3) and upsert failure reporting (C1) -/

/-- Claim C3: the metadata written to the vector store carries `chunkIndex = 0`
for every record and `totalChunks = originalLength` (or `1` when
`originalLength` is zero, the only falsy `ℕ`), regardless of the source
fragment's actual index; hence for any fragment whose actual index is
non-zero, the stored sort key differs from the real index. -/
theorem upsertEmbeddings_metadata_constant (embeddings : List EmbeddingResult) :
    (embeddings.map toPineconeVector).map (fun v => v.metadata.chunkIndex)
      = List.replicate embeddings.length 0
    ∧ (embeddings.map toPineconeVector).map (fun v => v.metadata.totalChunks)
      = embeddings.map (fun e =>
          if e.metadata.originalLength = 0 then 1 else e.metadata.originalLength)
    ∧ ∀ (chunk : ChunkedData) (vector : List ℚ), chunk.chunkIndex ≠ 0 →
        (toPineconeVector (mkEmbeddingResult chunk vector)).metadata.chunkIndex
          ≠ chunk.chunkIndex := by
  refine ⟨?_, ?_, ?_⟩
  · induction embeddings with
    | nil => rfl
    | cons e t ih => simp [toPineconeVector, ih, List.replicate_succ]
  · induction embeddings with
    | nil => rfl
    | cons e t ih => simp [toPineconeVector, ih]
  · intro chunk vector h
    simp only [toPineconeVector, mkEmbeddingResult]
    exact fun hc => h hc.symm

/-- Witness for C3 at a fragment with actual index 1. -/
theorem upsertEmbeddings_metadata_constant_witness :
    sampleChunk.chunkIndex ≠ 0
    ∧ (toPineconeVector (mkEmbeddingResult sampleChunk [])).metadata.chunkIndex
        ≠ sampleChunk.chunkIndex :=
  ⟨by decide, (upsertEmbeddings_metadata_constant []).2.2 sampleChunk [] (by decide)⟩

theorem batchesGo_sum : ∀ (fuel : Nat) (l : List PineconeVector), l.length ≤ fuel →
    ((batchesGo fuel l).map List.length).sum = l.length := by
  intro fuel
  induction fuel with
  | zero =>
    intro l h
    have : l = [] := List.eq_nil_of_length_eq_zero (by omega)
    subst this
    rfl
  | succ f ih =>
    intro l h
    cases l with
    | nil => rfl
    | cons v rest =>
      simp only [List.length_cons] at h
      simp only [batchesGo, List.map_cons, List.sum_cons]
      have hd : ((v :: rest).drop 100).length ≤ f := by
        simp only [List.length_drop, List.length_cons]
        omega
      rw [ih _ hd]
      simp only [List.length_take, List.length_drop, List.length_cons]
      omega

theorem runBatches_ok (upsertOp : List PineconeVector → Except String Unit) :
    ∀ (bs : List (List PineconeVector)) (acc n : Nat),
      runBatches upsertOp bs acc = .ok n → n = acc + (bs.map List.length).sum := by
  intro bs
  induction bs with
  | nil =>
    intro acc n h
    simp only [runBatches, Except.ok.injEq] at h
    simp [h]
  | cons b rest ih =>
    intro acc n h
    simp only [runBatches] at h
    cases hop : upsertOp b with
    | ok u => rw [hop] at h; have := ih (acc + b.length) n h; simp [this]; omega
    | error e => rw [hop] at h; exact absurd h (by simp)

/-- Claim C1 (amended: partial progress is not reported — the catch clause
returns the literal zero): whenever `upsertEmbeddings` fails, the response
carries `success = false` and `upsertedCount = 0`, regardless of how many
earlier batches were upserted; on overall success the response carries the
full record count. -/
theorem upsertEmbeddings_failure_reports_zero
    (upsertOp : List PineconeVector → Except String Unit)
    (embeddings : List EmbeddingResult) :
    ((upsertEmbeddings upsertOp embeddings).success = false →
      (upsertEmbeddings upsertOp embeddings).upsertedCount = 0)
    ∧ ((upsertEmbeddings upsertOp embeddings).success = true →
      (upsertEmbeddings upsertOp embeddings).upsertedCount = embeddings.length) := by
  have key : upsertEmbeddings upsertOp embeddings
      = (match runBatches upsertOp (batchedVectors (embeddings.map toPineconeVector)) 0 with
        | .ok n => ({ upsertedCount := n, success := true, error := none } : UpsertResponse)
        | .error e => { upsertedCount := 0, success := false, error := some e }) := rfl
  rw [key]
  cases hr : runBatches upsertOp (batchedVectors (embeddings.map toPineconeVector)) 0 with
  | ok n =>
    refine ⟨fun h => absurd h (by simp), fun _ => ?_⟩
    have hn := runBatches_ok upsertOp _ 0 n hr
    unfold batchedVectors at hn
    rw [batchesGo_sum (embeddings.map toPineconeVector).length
      (embeddings.map toPineconeVector) (le_refl _)] at hn
    simpa using hn
  | error e => exact ⟨fun _ => rfl, fun h => absurd h (by simp)⟩

set_option maxRecDepth 10000 in
/-- Witness for C1 at a concrete failing run. -/
theorem upsertEmbeddings_failure_reports_zero_witness :
    (upsertEmbeddings failSecond manyEmbeddings).success = false
    ∧ (upsertEmbeddings failSecond manyEmbeddings).upsertedCount = 0 :=
  ⟨rfl, (upsertEmbeddings_failure_reports_zero failSecond manyEmbeddings).1 rfl⟩

set_option maxRecDepth 10000 in
/-- Claim C1, counterexample to the claim as stated: with 150 records and an
upsert oracle that accepts the first (full, 100-record) batch and throws on
the second, 100 records are upserted before the failure, yet the response
reports `upsertedCount = 0`, not 100. -/
theorem upsertEmbeddings_partial_count_counterexample :
    failSecond ((manyEmbeddings.map toPineconeVector).take 100) = .ok ()
    ∧ upsertEmbeddings failSecond manyEmbeddings
        = { upsertedCount := 0, success := false, error := some "upsert failed" }
    ∧ (upsertEmbeddings failSecond manyEmbeddings).upsertedCount ≠ 100 := by
  refine ⟨rfl, rfl, by decide⟩

/-! ### Theorems: confidence scoring (C5) -/

theorem foldl_add_score : ∀ (l : List SimilarityResult) (c : ℚ),
    l.foldl (fun sum r => sum + r.score) c = c + (l.map (fun r => r.score)).sum := by
  intro l
  induction l with
  | nil => intro c; simp
  | cons r t ih => intro c; simp [ih]; ring

theorem calculateConfidence_formula (L : List SimilarityResult) (h : L ≠ []) :
    calculateConfidence L
      = min (((L.map (fun r => r.score)).sum / (L.length : ℚ))
          + min (((L.filter (fun r => (4/5 : ℚ) < r.score)).length : ℚ) / 5) (1/5 : ℚ)) 1 := by
  unfold calculateConfidence
  rw [if_neg (by simpa using fun hc => h (List.eq_nil_of_length_eq_zero hc))]
  rw [foldl_add_score, zero_add]

theorem calculateConfidence_nonneg (L : List SimilarityResult)
    (h : ∀ r ∈ L, 0 ≤ r.score) : 0 ≤ calculateConfidence L := by
  cases L with
  | nil => exact le_refl 0
  | cons a t =>
    rw [calculateConfidence_formula _ (by simp)]
    refine le_min ?_ (by norm_num)
    have hsum : 0 ≤ ((a :: t).map (fun r => r.score)).sum := by
      apply List.sum_nonneg
      intro x hx
      obtain ⟨r, hr, hrx⟩ := List.mem_map.mp hx
      exact hrx ▸ h r hr
    have hlen : (0 : ℚ) < ((a :: t).length : ℚ) := by
      exact_mod_cast Nat.succ_pos t.length
    have hdiv : 0 ≤ ((a :: t).map (fun r => r.score)).sum / ((a :: t).length : ℚ) :=
      div_nonneg hsum hlen.le
    have hmin : (0 : ℚ) ≤ min ((((a :: t).filter (fun r => (4/5 : ℚ) < r.score)).length : ℚ) / 5)
        (1/5 : ℚ) := le_min (by positivity) (by norm_num)
    linarith

theorem conf_arith (S n q sc : ℚ) (hn : 1 ≤ n) (hq : 0 ≤ q) (hsc : 4/5 < sc) :
    min (S / n + min (q / 5) (1/5 : ℚ)) 1
      ≤ min ((S + sc) / (n + 1) + min ((q + 1) / 5) (1/5 : ℚ)) 1 := by
  have hbonus : min ((q + 1) / 5) (1/5 : ℚ) = 1/5 := by
    apply min_eq_right
    rw [div_le_div_iff (by norm_num) (by norm_num)]
    linarith
  rw [hbonus]
  by_cases hcase : S ≤ n * sc
  · apply min_le_min _ (le_refl 1)
    apply add_le_add
    · rw [div_le_div_iff (by linarith) (by linarith)]
      nlinarith
    · exact min_le_right _ _
  · push_neg at hcase
    have hdiv : (4/5 : ℚ) ≤ (S + sc) / (n + 1) := by
      rw [le_div_iff (by linarith)]
      nlinarith
    have hRHS : (1 : ℚ) ≤ (S + sc) / (n + 1) + 1/5 := by linarith
    calc min (S / n + min (q / 5) (1/5 : ℚ)) 1 ≤ 1 := min_le_right _ _
      _ = min ((S + sc) / (n + 1) + 1/5) 1 := (min_eq_right hRHS).symm

theorem conf_append_high (L : List SimilarityResult) (s : SimilarityResult)
    (hne : L ≠ []) (hhigh : (4/5 : ℚ) < s.score) :
    calculateConfidence L ≤ calculateConfidence (L ++ [s]) := by
  rw [calculateConfidence_formula L hne,
    calculateConfidence_formula (L ++ [s]) (by simp [hne])]
  have hmap : ((L ++ [s]).map (fun r => r.score)).sum
      = (L.map (fun r => r.score)).sum + s.score := by simp
  have hlenN : (L ++ [s]).length = L.length + 1 := by simp
  have hfilter : (L ++ [s]).filter (fun r => (4/5 : ℚ) < r.score)
      = L.filter (fun r => (4/5 : ℚ) < r.score) ++ [s] := by
    rw [List.filter_append]
    simp [List.filter, hhigh]
  have hcountN : ((L ++ [s]).filter (fun r => (4/5 : ℚ) < r.score)).length
      = (L.filter (fun r => (4/5 : ℚ) < r.score)).length + 1 := by
    rw [hfilter]
    simp
  rw [hmap, hlenN, hcountN]
  push_cast
  apply conf_arith
  · have : 1 ≤ L.length := by
      cases L with
      | nil => exact absurd rfl hne
      | cons a t => simp
    exact_mod_cast this
  · positivity
  · exact hhigh

/-- Claim C5: `calculateConfidence` returns 0 on the empty list; on a
non-empty list it returns the average score plus
`min(count(score > 0.8) / 5, 0.2)` clamped to at most 1 (stated as a
refinement against `confidenceSpec`, the formula transcribed from the spec);
and for scores within `[0, 1]`, appending one result with score above 0.8
never decreases the confidence. -/
theorem calculateConfidence_spec_claim :
    calculateConfidence [] = 0
    ∧ (∀ results : List SimilarityResult, calculateConfidence results = confidenceSpec results)
    ∧ ∀ (results : List SimilarityResult) (s : SimilarityResult),
        (∀ r ∈ results, 0 ≤ r.score ∧ r.score ≤ 1) → (4/5 : ℚ) < s.score →
        calculateConfidence results ≤ calculateConfidence (results ++ [s]) := by
  refine ⟨rfl, ?_, ?_⟩
  · intro results
    unfold calculateConfidence confidenceSpec
    by_cases h : results = []
    · simp [h]
    · rw [if_neg (by simpa using fun hc => h (List.eq_nil_of_length_eq_zero hc)), if_neg h]
      rw [foldl_add_score, zero_add, List.countP_eq_length_filter]
  · intro results s hs hhigh
    cases results with
    | nil =>
      have h0 : calculateConfidence ([] : List SimilarityResult) = 0 := rfl
      rw [List.nil_append, h0]
      exact calculateConfidence_nonneg [s]
        (by intro r hr; rw [List.mem_singleton] at hr; subst hr; linarith)
    | cons r0 rest =>
      exact conf_append_high (r0 :: rest) s (by simp) hhigh

/-- Witness for C5 at a concrete list and high-scoring appended result. -/
theorem calculateConfidence_spec_claim_witness :
    (∀ r ∈ [sampleResultA], 0 ≤ r.score ∧ r.score ≤ 1)
    ∧ (4/5 : ℚ) < sampleResultHigh.score
    ∧ calculateConfidence [sampleResultA]
        ≤ calculateConfidence ([sampleResultA] ++ [sampleResultHigh]) :=
  ⟨by intro r hr
      rw [List.mem_singleton] at hr
      subst hr
      exact ⟨by norm_num [sampleResultA], by norm_num [sampleResultA]⟩,
   by norm_num [sampleResultHigh],
   calculateConfidence_spec_claim.2.2 [sampleResultA] sampleResultHigh
     (by intro r hr
         rw [List.mem_singleton] at hr
         subst hr
         exact ⟨by norm_num [sampleResultA], by norm_num [sampleResultA]⟩)
     (by norm_num [sampleResultHigh])⟩

/-! ### Theorems: hybrid-search boost bounds (C6) -/

theorem foldl_mono_step (f : ℚ → String → ℚ) (hf : ∀ a k, a ≤ f a k) :
    ∀ (kws : List String) (acc : ℚ), acc ≤ kws.foldl f acc := by
  intro kws
  induction kws with
  | nil => intro acc; exact le_refl _
  | cons k t ih => intro acc; exact (hf acc k).trans (ih (f acc k))

theorem keywordBoost_nonneg (kws : List String) (content : String) :
    0 ≤ keywordBoost kws content := by
  apply foldl_mono_step
  intro a k
  dsimp only
  split
  · linarith
  · exact le_refl _

/-- Claim C6: for every semantic candidate, the boosted score assigned by
`hybridSearch` is at least the candidate's original semantic score (provided
that score is at most 1, as cosine scores are) and at most 1.0. -/
theorem hybridSearch_boost_bounds (query : String) (results : List SimilarityResult)
    (h : ∀ r ∈ results, r.score ≤ 1) :
    List.Forall₂ (fun r rb => r.score ≤ rb.score ∧ rb.score ≤ 1)
      results (boostResults query results) := by
  unfold boostResults
  induction results with
  | nil => simp
  | cons r t ih =>
    simp only [List.map_cons]
    refine List.Forall₂.cons ⟨?_, ?_⟩ (ih (fun x hx => h x (by simp [hx])))
    · exact le_min
        (le_add_of_nonneg_right (keywordBoost_nonneg (queryKeywords query) r.content))
        (h r (by simp))
    · exact min_le_right _ _

/-- Witness for C6 at a concrete query and candidate. -/
theorem hybridSearch_boost_bounds_witness :
    (∀ r ∈ [sampleCandidate], r.score ≤ 1)
    ∧ List.Forall₂ (fun r rb => r.score ≤ rb.score ∧ rb.score ≤ 1)
        [sampleCandidate] (boostResults "hello world" [sampleCandidate]) :=
  ⟨by intro r hr; rw [List.mem_singleton] at hr; subst hr; norm_num [sampleCandidate],
   hybridSearch_boost_bounds "hello world" [sampleCandidate]
     (by intro r hr; rw [List.mem_singleton] at hr; subst hr; norm_num [sampleCandidate])⟩

/-! ### Theorems: conversation history capping (C8) -/

theorem appendAndTrim_drop (history : List ServerChatMessage) (msg : ServerChatMessage) :
    appendAndTrim history msg
      = (history ++ [msg]).drop ((history ++ [msg]).length - 20) := by
  unfold appendAndTrim
  dsimp only
  split
  · rfl
  · next hle => rw [Nat.sub_eq_zero_of_le (by omega), List.drop_zero]

theorem drop_tail_eq {α : Type} (l ms : List α) (n : Nat) :
    ((l.drop (l.length - n)) ++ ms).drop (((l.drop (l.length - n)) ++ ms).length - n)
      = (l ++ ms).drop ((l ++ ms).length - n) := by
  have hk : l.length - n ≤ l.length := Nat.sub_le _ _
  have h1 : (l.drop (l.length - n)) ++ ms = (l ++ ms).drop (l.length - n) :=
    (List.drop_append_of_le_length hk).symm
  rw [h1, List.drop_drop]
  congr 1
  simp only [List.length_drop, List.length_append]
  omega

theorem foldl_appendAndTrim (ms : List ServerChatMessage) :
    ∀ h : List ServerChatMessage, h.length ≤ 20 →
      ms.foldl appendAndTrim h = (h ++ ms).drop ((h ++ ms).length - 20) := by
  induction ms with
  | nil =>
    intro h hh
    simp [Nat.sub_eq_zero_of_le hh]
  | cons m t ih =>
    intro h hh
    simp only [List.foldl_cons]
    have hstep : (appendAndTrim h m).length ≤ 20 := by
      rw [appendAndTrim_drop]
      simp only [List.length_drop, List.length_append]
      omega
    rw [ih (appendAndTrim h m) hstep, appendAndTrim_drop, drop_tail_eq (h ++ [m]) t 20]
    simp [List.append_assoc]

/-- Claim C8: appending more than 20 messages one at a time through the
append-then-trim step leaves exactly the 20 most recently appended messages,
in their original relative order (the oldest are dropped first). -/
theorem conversationHistory_cap (msgs : List ServerChatMessage) (h : 20 < msgs.length) :
    msgs.foldl appendAndTrim [] = msgs.drop (msgs.length - 20)
    ∧ (msgs.foldl appendAndTrim []).length = 20 := by
  have hmain := foldl_appendAndTrim msgs [] (by simp)
  simp only [List.nil_append] at hmain
  refine ⟨hmain, ?_⟩
  rw [hmain]
  simp only [List.length_drop]
  omega

/-- Witness for C8 at 21 concrete messages. -/
theorem conversationHistory_cap_witness :
    20 < msgs21.length
    ∧ (msgs21.foldl appendAndTrim [] = msgs21.drop (msgs21.length - 20)
      ∧ (msgs21.foldl appendAndTrim []).length = 20) :=
  ⟨by simp [msgs21], conversationHistory_cap msgs21 (by simp [msgs21])⟩

/-! ### Theorems: cosine similarity (C9) -/

theorem dotAcc_comm : ∀ a b : List ℝ, dotAcc a b = dotAcc b a := by
  intro a
  induction a with
  | nil => intro b; cases b <;> simp [dotAcc]
  | cons x xs ih =>
    intro b
    cases b with
    | nil => simp [dotAcc]
    | cons y ys => simp only [dotAcc, ih]; ring

theorem dotAcc_self_nonneg : ∀ a : List ℝ, 0 ≤ dotAcc a a := by
  intro a
  induction a with
  | nil => simp [dotAcc]
  | cons x xs ih => simp only [dotAcc]; nlinarith [sq_nonneg x]

theorem dotAcc_cauchy_schwarz : ∀ a b : List ℝ, (dotAcc a b) ^ 2 ≤ dotAcc a a * dotAcc b b := by
  intro a
  induction a with
  | nil => intro b; simp [dotAcc]
  | cons x xs ih =>
    intro b
    cases b with
    | nil => simp [dotAcc, dotAcc_self_nonneg (x :: xs)]
    | cons y ys =>
      simp only [dotAcc]
      have hA := dotAcc_self_nonneg xs
      have hB := dotAcc_self_nonneg ys
      have hIH := ih ys
      by_cases hBz : dotAcc ys ys = 0
      · have hD : dotAcc xs ys = 0 := by nlinarith [sq_nonneg (dotAcc xs ys)]
        rw [hBz, hD]
        nlinarith [sq_nonneg y, sq_nonneg x, mul_nonneg hA (sq_nonneg y)]
      · have hBpos : 0 < dotAcc ys ys := lt_of_le_of_ne hB (Ne.symm hBz)
        nlinarith [sq_nonneg (x * dotAcc ys ys - y * dotAcc xs ys),
          mul_nonneg (add_nonneg (sq_nonneg y) hB) (sub_nonneg.mpr hIH), hBpos]

/-- Claim C9: for equal-length vectors, `calculateCosineSimilarity` is
symmetric, its value lies in `[-1, 1]`, and it returns 0 whenever either
input has zero norm (the summed squares accumulator being zero), raising no
division-by-zero. -/
theorem calculateCosineSimilarity_props (a b : List ℝ) (hlen : a.length = b.length) :
    calculateCosineSimilarity a b = calculateCosineSimilarity b a
    ∧ (∀ r : ℝ, calculateCosineSimilarity a b = .ok r → -1 ≤ r ∧ r ≤ 1)
    ∧ ((dotAcc a a = 0 ∨ dotAcc b b = 0) → calculateCosineSimilarity a b = .ok 0) := by
  have hA := dotAcc_self_nonneg a
  have hB := dotAcc_self_nonneg b
  have hne : ¬(a.length ≠ b.length) := by simpa using hlen
  have hne2 : ¬(b.length ≠ a.length) := by simpa using hlen.symm
  unfold calculateCosineSimilarity
  rw [if_neg hne, if_neg hne2]
  refine ⟨?_, ?_, ?_⟩
  · by_cases hz : dotAcc a a = 0 ∨ dotAcc b b = 0
    · rw [if_pos hz, if_pos hz.symm]
    · have hz2 : ¬(dotAcc b b = 0 ∨ dotAcc a a = 0) := fun hc => hz hc.symm
      rw [if_neg hz, if_neg hz2, dotAcc_comm b a,
        mul_comm (Real.sqrt (dotAcc b b)) (Real.sqrt (dotAcc a a))]
  · intro r hr
    by_cases hz : dotAcc a a = 0 ∨ dotAcc b b = 0
    · rw [if_pos hz] at hr
      simp only [Except.ok.injEq] at hr
      subst hr
      norm_num
    · rw [if_neg hz] at hr
      simp only [Except.ok.injEq] at hr
      subst hr
      push_neg at hz
      have hApos : 0 < dotAcc a a := lt_of_le_of_ne hA (Ne.symm hz.1)
      have hBpos : 0 < dotAcc b b := lt_of_le_of_ne hB (Ne.symm hz.2)
      have hsA : 0 < Real.sqrt (dotAcc a a) := Real.sqrt_pos.mpr hApos
      have hsB : 0 < Real.sqrt (dotAcc b b) := Real.sqrt_pos.mpr hBpos
      have habs : |dotAcc a b| ≤ Real.sqrt (dotAcc a a) * Real.sqrt (dotAcc b b) := by
        have h1 : |dotAcc a b| = Real.sqrt ((dotAcc a b) ^ 2) := (Real.sqrt_sq_eq_abs _).symm
        rw [h1, ← Real.sqrt_mul hA (dotAcc b b)]
        exact Real.sqrt_le_sqrt (dotAcc_cauchy_schwarz a b)
      obtain ⟨hlow, hhighb⟩ := abs_le.mp habs
      constructor
      · rw [le_div_iff (by positivity)]
        linarith
      · rw [div_le_one (by positivity)]
        exact hhighb
  · intro hz
    rw [if_pos hz]

/-- Witness for C9 at two concrete orthogonal vectors. -/
theorem calculateCosineSimilarity_props_witness :
    ([(1 : ℝ), 0].length = [(0 : ℝ), 1].length)
    ∧ (calculateCosineSimilarity [(1 : ℝ), 0] [(0 : ℝ), 1]
        = calculateCosineSimilarity [(0 : ℝ), 1] [(1 : ℝ), 0]
      ∧ (∀ r : ℝ, calculateCosineSimilarity [(1 : ℝ), 0] [(0 : ℝ), 1] = .ok r →
          -1 ≤ r ∧ r ≤ 1)
      ∧ ((dotAcc [(1 : ℝ), 0] [(1 : ℝ), 0] = 0 ∨ dotAcc [(0 : ℝ), 1] [(0 : ℝ), 1] = 0) →
          calculateCosineSimilarity [(1 : ℝ), 0] [(0 : ℝ), 1] = .ok 0)) :=
  ⟨rfl, calculateCosineSimilarity_props [(1 : ℝ), 0] [(0 : ℝ), 1] rfl⟩

/-! ### Theorems: context assembly length bound (C2) -/

theorem jsJoin_newline_length : ∀ parts : List String,
    (jsJoin "\n" parts).length ≤ (parts.map String.length).sum + parts.length - 1 := by
  intro parts
  induction parts with
  | nil => simp [jsJoin]
  | cons x t ih =>
    cases t with
    | nil => simp [jsJoin]
    | cons y tt =>
      simp only [jsJoin, String.length_append, List.map_cons, List.sum_cons,
        List.length_cons] at ih ⊢
      have hnl : ("\n" : String).length = 1 := rfl
      omega

theorem firstOccurrencesGo_length_le : ∀ (fuel : Nat) (l : List String),
    (firstOccurrencesGo fuel l).length ≤ l.length := by
  intro fuel
  induction fuel with
  | zero => intro l; cases l <;> simp [firstOccurrencesGo]
  | succ f ih =>
    intro l
    cases l with
    | nil => simp [firstOccurrencesGo]
    | cons x xs =>
      simp only [firstOccurrencesGo, List.length_cons]
      have hf := List.length_filter_le (fun y => decide (y ≠ x)) xs
      have hrec := ih (xs.filter (fun y => decide (y ≠ x)))
      omega

theorem firstOccurrences_length_le (l : List String) :
    (firstOccurrences l).length ≤ l.length :=
  firstOccurrencesGo_length_le l.length l

theorem buildParts_bound (maxLen : Nat) :
    ∀ (gs : List (List SimilarityResult)) (totalLength : Nat) (parts : List String),
      (parts.map String.length).sum = totalLength → totalLength ≤ maxLen →
      ((buildParts maxLen totalLength parts gs).map String.length).sum ≤ maxLen
      ∧ (buildParts maxLen totalLength parts gs).length ≤ parts.length + gs.length := by
  intro gs
  induction gs with
  | nil =>
    intro totalLength parts h1 h2
    exact ⟨le_of_eq_of_le h1 h2, by simp [buildParts]⟩
  | cons g rest ih =>
    intro totalLength parts h1 h2
    rw [buildParts]
    split
    · next hfits =>
      have hrec := ih
        (totalLength + (addChunks maxLen totalLength (groupHeader (sortByChunkIndex g))
          (sortByChunkIndex g)).length)
        (parts ++ [addChunks maxLen totalLength (groupHeader (sortByChunkIndex g))
          (sortByChunkIndex g)])
        (by simp [h1]) hfits
      refine ⟨hrec.1, hrec.2.trans ?_⟩
      simp only [List.length_append, List.length_cons, List.length_nil]
      omega
    · next =>
      exact ⟨le_of_eq_of_le h1 h2, by simp only [List.length_cons]; omega⟩

/-- Claim C2 (amended: the newline separators inserted by the final
`join('\n')` are not charged against the budget — the returned string can
exceed `maxLength` by up to one character per retained block beyond the
first): on zero results the fixed sentinel is returned, and on non-empty
results the output length is at most `maxLength + (results.length - 1)`,
the total length of the retained blocks themselves being at most
`maxLength`. -/
theorem prepareContext_length_bound (results : List SimilarityResult) (maxLen : Nat) :
    (results = [] → prepareContext results maxLen = "No relevant token information found.")
    ∧ (results ≠ [] →
        (prepareContext results maxLen).length ≤ maxLen + (results.length - 1)) := by
  constructor
  · intro h
    subst h
    rfl
  · intro h
    unfold prepareContext
    rw [if_neg (fun hc => h (List.eq_nil_of_length_eq_zero hc))]
    obtain ⟨hsum, hcount⟩ :=
      buildParts_bound maxLen (tokenGroups results) 0 [] rfl (Nat.zero_le _)
    have hjoin := jsJoin_newline_length (buildParts maxLen 0 [] (tokenGroups results))
    have hgroups : (tokenGroups results).length ≤ results.length := by
      unfold tokenGroups
      rw [List.length_map]
      exact (firstOccurrences_length_le _).trans (le_of_eq (List.length_map _ _))
    have hres : 1 ≤ results.length := by
      cases results with
      | nil => exact absurd rfl h
      | cons a t => simp
    simp only [List.length_nil] at hcount
    omega

/-- Witness for C2: the sentinel on zero results, and the amended bound at the
two-result example. -/
theorem prepareContext_length_bound_witness :
    prepareContext [] 30 = "No relevant token information found."
    ∧ csResults ≠ []
    ∧ (prepareContext csResults 30).length ≤ 30 + (csResults.length - 1) :=
  ⟨(prepareContext_length_bound [] 30).1 rfl, by decide,
   (prepareContext_length_bound csResults 30).2 (by decide)⟩

/-- Claim C2, counterexample to the claim as stated: two results in distinct
token groups under budget `maxLength = 30`; each group block is its
15-character header (the 31-character fragment addition overflows and is
skipped), both blocks are charged `15 + 15 = 30 ≤ 30` and retained, but the
join inserts one more separator character, so the output has 31 characters —
the bound does not hold once the join separators are counted. -/
theorem prepareContext_exceeds_maxLength_counterexample :
    csResults.length ≠ 0
    ∧ (prepareContext csResults 30).length = 31
    ∧ 30 < (prepareContext csResults 30).length := by
  refine ⟨by decide, by decide, by decide⟩

end AgentToken
